import Mathlib

/-!
# Verification of the costar keyboard firmware core

This file gives a shallow embedding of the input pipeline of the
Teensy USB keyboard firmware (the full-featured variant of the source,
which adds macro recording/replay to the reduced variant) and proves
properties of its debounce engine, report queue, key dispatcher,
magic-mode overlay and macro recorder/replayer.

The embedding mirrors the C source:

* the 7-byte global `queue` array becomes `Fin 7 → Nat`;
* per-key `pressed` flags become `Nat → Bool`;
* the macro buffer `replay_buf` together with `replay_buf_len` becomes
  the `List Nat` of its live prefix;
* calls to collaborators (`usb_keyboard_send`, the low-level queue
  primitives, entry into `key_press`/`key_release`) are recorded in a
  ghost event log so that observable activity can be stated;
* `jump_bootloader` (which never returns) is modelled as a ghost flag;
* the mutual recursion `key_press → magic_key_press →
  replay_keypresses → key_press` (reachable in the C source when the
  replay buffer itself contains the magic key followed by a key whose
  layout value is `KEY_R`) is made total with an explicit fuel
  argument; `none` means the fuel ran out.
-/

/-- A single low-level or dispatcher-level event, recorded in the ghost
log: entry into `key_press`/`key_release`, the low-level queue
primitives, and each transmitted USB report (6 key slots plus the
modifier byte, as assembled by `send`). -/
inductive Ev where
  | press (k : Nat)
  | release (k : Nat)
  | llpress (c : Nat)
  | llrelease (c : Nat)
  | llmodpress (c : Nat)
  | llmodrelease (c : Nat)
  | send (keys : List Nat) (mods : Nat)
deriving DecidableEq

/-- One entry of the `layout[]` table: `{uint8_t type; uint8_t value;}`. -/
structure LayoutEntry where
  type : Nat
  value : Nat
deriving DecidableEq

/-- Modelled from the spec: the keyboard model header (`KEYBOARD_MODEL`,
included at build time) is not part of the source tree.  It provides
`NKEY`, the `KEYBOARD_LAYOUT` table, the `IS_MODIFIER` classification
of a layout entry and the `KC_RGUI` pair used as `MAGIC_KEY`.  These
become the fields of a configuration record. -/
structure Config where
  nkey : Nat
  layout : Nat → LayoutEntry
  magic : LayoutEntry
  isModifier : LayoutEntry → Bool

/-- Modelled from the spec: the HID usage code `KEY_X` of the
designated self-test key comes from the USB keyboard library header,
which is not part of the source tree; the standard HID value is used. -/
def KEY_X : Nat := 27

/-- Modelled from the spec: the HID usage code `KEY_Q` of the
designated record key (standard HID value). -/
def KEY_Q : Nat := 20

/-- Modelled from the spec: the HID usage code `KEY_R` of the
designated replay key (standard HID value). -/
def KEY_R : Nat := 21

/-- Modelled from the spec: the HID usage code `KEY_B` of the
designated bootloader key (standard HID value). -/
def KEY_B : Nat := 5

/-- The mutable global state of the firmware core: the per-key
`pressed` flags, the live prefix of `replay_buf`, the 7-byte report
`queue`, the `mod_keys` bitmask and the two mode flags, plus the ghost
bootloader flag and event log. -/
structure MachineState where
  pressed : Nat → Bool
  replay_buf : List Nat
  queue : Fin 7 → Nat
  mod_keys : Nat
  magic_mode : Bool
  recording_mode : Bool
  bootloader : Bool
  log : List Ev

/-- The initial state: all globals are zero-initialized and `init()`
clears the key table and `mod_keys` again before interrupts start. -/
def init_state : MachineState :=
  { pressed := fun _ => false
    replay_buf := []
    queue := fun _ => 0
    mod_keys := 0
    magic_mode := false
    recording_mode := false
    bootloader := false
    log := [] }

/-- `send()`: copies `queue[0..5]` into the outgoing report together
with `mod_keys` and transmits it; transmission is recorded as a ghost
`Ev.send` event. -/
def send (s : MachineState) : MachineState :=
  { s with log := s.log ++ [Ev.send (List.ofFn fun i : Fin 6 => s.queue i.castSucc) s.mod_keys] }

/-- `ll_key_press(k)`: `for(i=5;i>0;i--) queue[i]=queue[i-1]; queue[0]=k; send();`
Slot 0 receives `k`, slots 1..5 receive the previous contents of slots
0..4 (the loop runs downwards, so every read sees the original array),
and slot 6 is untouched. -/
def ll_key_press (s : MachineState) (k : Nat) : MachineState :=
  send { s with
    queue := fun i =>
      if i.val = 0 then k
      else if i.val ≤ 5 then s.queue ⟨i.val - 1, Nat.lt_of_le_of_lt (Nat.sub_le i.val 1) i.isLt⟩
      else s.queue i
    log := s.log ++ [Ev.llpress k] }

/-- `ll_modifier_press(mod)`: `mod_keys |= mod; send();` -/
def ll_modifier_press (s : MachineState) (m : Nat) : MachineState :=
  send { s with mod_keys := s.mod_keys ||| m, log := s.log ++ [Ev.llmodpress m] }

/-- The first loop of `ll_key_release`:
`for(i=0;i<6;i++) if(queue[i]==k) break;` — the index of the first of
the six report slots holding `k`, or `6` when `k` is absent. -/
def find_pos (q : Fin 7 → Nat) (k : Nat) : Nat :=
  if q 0 = k then 0
  else if q 1 = k then 1
  else if q 2 = k then 2
  else if q 3 = k then 3
  else if q 4 = k then 4
  else if q 5 = k then 5
  else 6

/-- `ll_key_release(k)`: after the scan loop (`find_pos`), the second
loop `for(; i < 6; i++) queue[i] = queue[i+1];` shifts every slot from
the found position on one place to the left (the loop runs upwards, so
every read sees the original array); slot 5 receives slot 6.  When `k`
is absent the found position is 6 and nothing is copied. -/
def ll_key_release (s : MachineState) (k : Nat) : MachineState :=
  send { s with
    queue := fun i =>
      if h : find_pos s.queue k ≤ i.val ∧ i.val < 6 then s.queue ⟨i.val + 1, Nat.succ_lt_succ h.2⟩
      else s.queue i
    log := s.log ++ [Ev.llrelease k] }

/-- `ll_modifier_release(mod)`: `mod_keys &= ~mod; send();` — the
`uint8_t` complement of `mod` is modelled as XOR with 255. -/
def ll_modifier_release (s : MachineState) (m : Nat) : MachineState :=
  send { s with mod_keys := s.mod_keys &&& (255 ^^^ m), log := s.log ++ [Ev.llmodrelease m] }

/-- `is_magic_key(k)`: compares `layout[k]` with the `MAGIC_KEY` pair. -/
def is_magic_key (cfg : Config) (k : Nat) : Bool :=
  (cfg.layout k).type == cfg.magic.type && (cfg.layout k).value == cfg.magic.value

/-- `clear_pressed()`: sets every key of the key table to unpressed,
zeroes all 7 queue slots and `mod_keys`, and transmits the (empty)
report. -/
def clear_pressed (cfg : Config) (s : MachineState) : MachineState :=
  send { s with
    pressed := fun k => if k < cfg.nkey then false else s.pressed k
    queue := fun _ => 0
    mod_keys := 0 }

/-- `add_to_replay_buf(k)`: appends `k` when
`replay_buf_len + 1 < sizeof(replay_buf)` (that is, when the buffer
holds fewer than 254 entries, since `sizeof(replay_buf) = 255`);
otherwise leaves the buffer alone and clears `recording_mode`. -/
def add_to_replay_buf (s : MachineState) (k : Nat) : MachineState :=
  if s.replay_buf.length + 1 < 255 then
    { s with replay_buf := s.replay_buf ++ [k] }
  else
    { s with recording_mode := false }

/-- `magic_key_release(k)`: in magic mode, the release of a key whose
layout value is `KEY_Q` starts a recording session: sets
`recording_mode`, resets `replay_buf_len` to 0, leaves magic mode and
calls `clear_pressed()`.  Any other release is absorbed. -/
def magic_key_release (cfg : Config) (s : MachineState) (k : Nat) : MachineState :=
  if (cfg.layout k).value = KEY_Q then
    clear_pressed cfg { s with recording_mode := true, replay_buf := [], magic_mode := false }
  else s

/-- `key_release(k)` (non-recursive): clears `key[k].pressed`; in
magic mode hands the release to `magic_key_release`; otherwise, when
recording, appends `k` to the replay buffer (note: with no magic-key
check), and then releases the layout value through the modifier or
normal low-level primitive.  Entry is recorded as a ghost `Ev.release`
event. -/
def key_release (cfg : Config) (s : MachineState) (k : Nat) : MachineState :=
  let s1 : MachineState :=
    { s with pressed := fun j => if j = k then false else s.pressed j
             log := s.log ++ [Ev.release k] }
  if s1.magic_mode then
    magic_key_release cfg s1 k
  else
    let s2 := if s1.recording_mode then add_to_replay_buf s1 k else s1
    if cfg.isModifier (cfg.layout k) then ll_modifier_release s2 (cfg.layout k).value
    else ll_key_release s2 (cfg.layout k).value

mutual

/-- `key_press(k)`: sets `key[k].pressed`; in magic mode hands the
press to `magic_key_press`; otherwise a press of the magic key exits
recording mode when recording and enters magic mode when not; any
other key is appended to the replay buffer when recording and then
pressed through the modifier or normal low-level primitive.  Entry is
recorded as a ghost `Ev.press` event.  The fuel argument bounds the
recursion through macro replay; `none` means it ran out. -/
def key_press (cfg : Config) : Nat → MachineState → Nat → Option MachineState
  | 0, _, _ => none
  | fuel + 1, s, k =>
    let s1 : MachineState :=
      { s with pressed := fun j => if j = k then true else s.pressed j
               log := s.log ++ [Ev.press k] }
    if s1.magic_mode then
      magic_key_press cfg fuel s1 k
    else if is_magic_key cfg k then
      some (if s1.recording_mode then { s1 with recording_mode := false }
            else { s1 with magic_mode := true })
    else
      let s2 := if s1.recording_mode then add_to_replay_buf s1 k else s1
      some (if cfg.isModifier (cfg.layout k) then ll_modifier_press s2 (cfg.layout k).value
            else ll_key_press s2 (cfg.layout k).value)

/-- `magic_key_press(k)`: a press of the magic key itself leaves magic
mode; a key whose layout value is `KEY_X` fires the self-test (two
synthetic `KEY_X` press/release pairs through the low-level
primitives); `KEY_R` leaves magic mode and replays the recorded
keypresses; `KEY_B` jumps to the bootloader (ghost flag).  The C
source tests these conditions with four independent `if`s on the same
`layout[k].value`, so at most one of the `KEY_X`/`KEY_R`/`KEY_B`
branches can fire and the chain below is equivalent. -/
def magic_key_press (cfg : Config) : Nat → MachineState → Nat → Option MachineState
  | 0, _, _ => none
  | fuel + 1, s, k =>
    let s1 := if is_magic_key cfg k then { s with magic_mode := false } else s
    let s2 := if (cfg.layout k).value = KEY_X then
        ll_key_release (ll_key_press (ll_key_release (ll_key_press s1 KEY_X) KEY_X) KEY_X) KEY_X
      else s1
    if (cfg.layout k).value = KEY_R then
      replay_keypresses cfg fuel { s2 with magic_mode := false }
    else if (cfg.layout k).value = KEY_B then
      some { s2 with bootloader := true }
    else
      some s2

/-- `replay_keypresses()`: calls `clear_pressed()` and then walks the
replay buffer, synthesizing a press for a key whose `pressed` flag is
clear and a release otherwise. -/
def replay_keypresses (cfg : Config) : Nat → MachineState → Option MachineState
  | 0, _ => none
  | fuel + 1, s => replay_loop cfg fuel (clear_pressed cfg s) 0

/-- The loop of `replay_keypresses`:
`for (i = 0; i < replay_buf_len; ++i)` — the bound is re-read from the
state every iteration, matching the C source, where a nested
recording-start command can truncate the buffer mid-replay. -/
def replay_loop (cfg : Config) : Nat → MachineState → Nat → Option MachineState
  | 0, _, _ => none
  | fuel + 1, s, i =>
    if h : i < s.replay_buf.length then
      if s.pressed (s.replay_buf.get ⟨i, h⟩) = false then
        match key_press cfg fuel s (s.replay_buf.get ⟨i, h⟩) with
        | none => none
        | some t => replay_loop cfg fuel t (i + 1)
      else
        replay_loop cfg fuel (key_release cfg s (s.replay_buf.get ⟨i, h⟩)) (i + 1)
    else
      some s

end

/-- A detected debounced transition of a key's logical state. -/
inductive Edge where
  | press
  | release
deriving DecidableEq

/-- The per-key state seen by the debounce engine: the logical
`pressed` flag and the 8-bit rolling `bounce` history register. -/
structure DebKeyState where
  pressed : Bool
  bounce : Nat
deriving DecidableEq

/-- One scan cycle of the debounce engine for a single key, from the
ISR body: OR the fresh sample into the history register, emit a press
edge when it reads `0b01111111` and the key is logically unpressed, a
release edge when it reads `0b10000000` and the key is logically
pressed, then shift the 8-bit register left by one.  A press edge runs
`key_press`, whose first statement sets the `pressed` flag; a release
edge runs `key_release`, which clears it. -/
def scan_key_step (st : DebKeyState) (sample : Bool) : DebKeyState × Option Edge :=
  let b := st.bounce ||| (if sample then 1 else 0)
  if b = 0b01111111 ∧ st.pressed = false then
    (⟨true, (b <<< 1) % 256⟩, some Edge.press)
  else if b = 0b10000000 ∧ st.pressed = true then
    (⟨false, (b <<< 1) % 256⟩, some Edge.release)
  else
    (⟨st.pressed, (b <<< 1) % 256⟩, none)

/-- Iterated scan cycles of the debounce engine for one key over a
list of raw samples. -/
def scan_key_run (st : DebKeyState) : List Bool → DebKeyState
  | [] => st
  | sample :: rest => scan_key_run (scan_key_step st sample).1 rest

/-- The edge the debounce engine emits for this key at cycle `i` of a
sample trace (`none` outside the trace or when the cycle is silent). -/
def edge_at (st : DebKeyState) (samples : List Bool) (i : Nat) : Option Edge :=
  if h : i < samples.length then
    (scan_key_step (scan_key_run st (samples.take i)) (samples.get ⟨i, h⟩)).2
  else none

/-- A sample trace holding a key for 7 cycles, releasing it for 7
cycles, and holding it again: press edge at cycle 6, release edge at
cycle 13, press edge at cycle 20. -/
def sampleTrace : List Bool :=
  List.replicate 7 true ++ List.replicate 7 false ++ List.replicate 7 true

/-- Events that touch the report queue or the outgoing report: the
low-level primitives and USB transmission. -/
def is_ll_ev : Ev → Bool
  | Ev.llpress _ => true
  | Ev.llrelease _ => true
  | Ev.llmodpress _ => true
  | Ev.llmodrelease _ => true
  | Ev.send _ _ => true
  | _ => false

/-- Events that signal a release towards the report queue or the
dispatcher. -/
def is_release_ev : Ev → Bool
  | Ev.llrelease _ => true
  | Ev.llmodrelease _ => true
  | Ev.release _ => true
  | _ => false

/-- Projects a ghost event to the dispatcher-level edge it records:
`(true, k)` for entry into `key_press(k)`, `(false, k)` for entry into
`key_release(k)`. -/
def dispatch_ev : Ev → Option (Bool × Nat)
  | Ev.press k => some (true, k)
  | Ev.release k => some (false, k)
  | _ => none

/-- The number of occupied (nonzero) slots of the 6-slot report
window. -/
def occupied (q : Fin 7 → Nat) : Nat :=
  (List.ofFn fun i : Fin 6 => q i.castSucc).countP (fun c => c != 0)

/-- The report-queue invariant of the spec: at most 6 occupied slots
and no duplicate (nonzero) codes in the 6-slot window. -/
def queue_wf (q : Fin 7 → Nat) : Prop :=
  occupied q ≤ 6 ∧ ∀ i j : Fin 7, i.val < j.val → j.val < 6 → q i ≠ 0 → q i ≠ q j

/-- The mode flags are not both set. -/
def modes_ok (s : MachineState) : Prop :=
  s.magic_mode = false ∨ s.recording_mode = false

/-- States reachable from the initial state through debounced edges
(each edge is dispatched through `key_press` or `key_release`). -/
inductive Reach (cfg : Config) : MachineState → Prop where
  | init : Reach cfg init_state
  | press (s : MachineState) (k fuel : Nat) (s' : MachineState) :
      Reach cfg s → key_press cfg fuel s k = some s' → Reach cfg s'
  | release (s : MachineState) (k : Nat) :
      Reach cfg s → Reach cfg (key_release cfg s k)

/-- A concrete keyboard configuration used to instantiate theorems
with hypotheses: six keys — two ordinary letters, the self-test,
record and replay maintenance keys, and the magic (right GUI modifier)
key. -/
def cfg0 : Config :=
  { nkey := 6
    layout := fun k =>
      if k = 0 then ⟨0, 30⟩
      else if k = 1 then ⟨0, 31⟩
      else if k = 2 then ⟨0, KEY_X⟩
      else if k = 3 then ⟨0, KEY_Q⟩
      else if k = 4 then ⟨0, KEY_R⟩
      else if k = 5 then ⟨1, 230⟩
      else ⟨0, 40⟩
    magic := ⟨1, 230⟩
    isModifier := fun e => e.type == 1 }

/-- A concrete state in magic mode whose report queue holds six keys. -/
def magicState : MachineState :=
  { init_state with
    magic_mode := true
    queue := fun i =>
      if i.val = 0 then 1
      else if i.val = 1 then 2
      else if i.val = 2 then 3
      else if i.val = 3 then 4
      else if i.val = 4 then 5
      else if i.val = 5 then 6
      else 0 }

/-- A concrete recording-mode state whose replay buffer holds 254
entries (the maximum the guard in `add_to_replay_buf` admits). -/
def fullBufState : MachineState :=
  { init_state with recording_mode := true, replay_buf := List.replicate 254 0 }

/-- A concrete state in magic mode in which key 1 is logically
pressed. -/
def magicPressedState : MachineState :=
  { init_state with magic_mode := true, pressed := fun j => j == 1 }

/-- A concrete state whose report queue holds the single code 7 in
slot 0. -/
def oneKeyState : MachineState :=
  { init_state with queue := fun i => if i.val = 0 then 7 else 0 }

/-- A concrete recording-mode state with an empty replay buffer. -/
def recState : MachineState :=
  { init_state with recording_mode := true }

lemma scan_key_step_press_iff (st : DebKeyState) (sample : Bool) :
    (scan_key_step st sample).2 = some Edge.press ↔
      (st.bounce ||| (if sample then 1 else 0)) = 0b01111111 ∧ st.pressed = false := by
  simp only [scan_key_step]
  split_ifs with h1 h2 <;> simp_all

lemma scan_key_step_release_iff (st : DebKeyState) (sample : Bool) :
    (scan_key_step st sample).2 = some Edge.release ↔
      (st.bounce ||| (if sample then 1 else 0)) = 0b10000000 ∧ st.pressed = true := by
  simp only [scan_key_step]
  split_ifs with h1 h2 <;> simp_all

lemma scan_key_step_press_pressed (st : DebKeyState) (sample : Bool)
    (h : (scan_key_step st sample).2 = some Edge.press) :
    st.pressed = false ∧ (scan_key_step st sample).1.pressed = true := by
  revert h
  simp only [scan_key_step]
  split_ifs with h1 h2 <;> simp_all

lemma scan_key_step_release_pressed (st : DebKeyState) (sample : Bool)
    (h : (scan_key_step st sample).2 = some Edge.release) :
    st.pressed = true ∧ (scan_key_step st sample).1.pressed = false := by
  revert h
  simp only [scan_key_step]
  split_ifs with h1 h2 <;> simp_all

lemma scan_key_step_none_pressed (st : DebKeyState) (sample : Bool)
    (h : (scan_key_step st sample).2 = none) :
    (scan_key_step st sample).1.pressed = st.pressed := by
  revert h
  simp only [scan_key_step]
  split_ifs with h1 h2 <;> simp_all

lemma scan_key_run_append (l1 l2 : List Bool) (st : DebKeyState) :
    scan_key_run st (l1 ++ l2) = scan_key_run (scan_key_run st l1) l2 := by
  induction l1 generalizing st with
  | nil => simp [scan_key_run]
  | cons b rest ih => simp [scan_key_run, ih]

lemma scan_key_run_take_succ (st : DebKeyState) (samples : List Bool) (i : Nat)
    (h : i < samples.length) :
    scan_key_run st (samples.take (i + 1)) =
      (scan_key_step (scan_key_run st (samples.take i)) (samples.get ⟨i, h⟩)).1 := by
  rw [List.take_succ, List.getElem?_eq_getElem h]
  simp only [Option.toList_some, scan_key_run_append, scan_key_run, List.get_eq_getElem]

lemma edge_at_lt (st : DebKeyState) (samples : List Bool) (i : Nat) (e : Edge)
    (h : edge_at st samples i = some e) : i < samples.length := by
  by_cases hi : i < samples.length
  · exact hi
  · simp [edge_at, hi] at h

lemma edge_at_press_pressed (st : DebKeyState) (samples : List Bool) (i : Nat)
    (h : edge_at st samples i = some Edge.press) :
    (scan_key_run st (samples.take i)).pressed = false ∧
      (scan_key_run st (samples.take (i + 1))).pressed = true := by
  have hlt := edge_at_lt st samples i Edge.press h
  rw [edge_at, dif_pos hlt] at h
  have := scan_key_step_press_pressed _ _ h
  rw [scan_key_run_take_succ st samples i hlt]
  exact this

lemma pressed_flip (f : Nat → Bool) :
    ∀ j i, i ≤ j → f i = true → f j = false →
      ∃ m, i ≤ m ∧ m < j ∧ f m = true ∧ f (m + 1) = false := by
  intro j
  induction j with
  | zero =>
    intro i hij hfi hfj
    interval_cases i
    rw [hfi] at hfj
    exact absurd hfj (by simp)
  | succ j ih =>
    intro i hij hfi hfj
    have hij' : i ≤ j := by
      rcases Nat.lt_or_ge i (j + 1) with h | h
      · omega
      · exfalso
        have hi1 : i = j + 1 := by omega
        rw [hi1] at hfi
        rw [hfi] at hfj
        exact absurd hfj (by simp)
    cases hf : f j with
    | true => exact ⟨j, hij', Nat.lt_succ_self j, hf, hfj⟩
    | false =>
      obtain ⟨m, h1, h2, h3, h4⟩ := ih i hij' hfi hf
      exact ⟨m, h1, Nat.lt_succ_of_lt h2, h3, h4⟩

lemma pressed_drop_is_release (st : DebKeyState) (samples : List Bool) (m : Nat)
    (h1 : (scan_key_run st (samples.take m)).pressed = true)
    (h2 : (scan_key_run st (samples.take (m + 1))).pressed = false) :
    edge_at st samples m = some Edge.release := by
  by_cases hm : m < samples.length
  · have hs := scan_key_run_take_succ st samples m hm
    rw [hs] at h2
    rcases he : (scan_key_step (scan_key_run st (samples.take m)) (samples.get ⟨m, hm⟩)).2 with
      _ | e
    · have := scan_key_step_none_pressed _ _ he
      rw [this, h1] at h2
      exact absurd h2 (by simp)
    · cases e with
      | press =>
        have := (scan_key_step_press_pressed _ _ he).1
        rw [this] at h1
        exact absurd h1 (by simp)
      | release => rw [edge_at, dif_pos hm]; exact he
  · exfalso
    have : samples.take (m + 1) = samples.take m := by
      rw [List.take_of_length_le (by omega), List.take_of_length_le (by omega)]
    rw [this, h1] at h2
    exact absurd h2 (by simp)

/-- C1: the debounce engine emits a press edge for a key exactly when
the bounce history register (after the fresh sample is OR-ed in) reads
`0b01111111` and the key's logical `pressed` flag is false, and a
release edge exactly when the register reads `0b10000000` and the flag
is true; and because a press edge sets the flag and the emitting
condition is gated on it, a second press edge can never occur on any
sample trace without an intervening release edge. -/
theorem debounce_edge_spec :
    (∀ (st : DebKeyState) (sample : Bool),
      ((scan_key_step st sample).2 = some Edge.press ↔
        (st.bounce ||| (if sample then 1 else 0)) = 0b01111111 ∧ st.pressed = false) ∧
      ((scan_key_step st sample).2 = some Edge.release ↔
        (st.bounce ||| (if sample then 1 else 0)) = 0b10000000 ∧ st.pressed = true)) ∧
    (∀ (st : DebKeyState) (samples : List Bool) (i j : Nat), i < j →
      edge_at st samples i = some Edge.press →
      edge_at st samples j = some Edge.press →
      ∃ m, i < m ∧ m < j ∧ edge_at st samples m = some Edge.release) := by
  constructor
  · intro st sample
    exact ⟨scan_key_step_press_iff st sample, scan_key_step_release_iff st sample⟩
  · intro st samples i j hij hi hj
    have h1 := (edge_at_press_pressed st samples i hi).2
    have h2 := (edge_at_press_pressed st samples j hj).1
    obtain ⟨m, hm1, hm2, hm3, hm4⟩ :=
      pressed_flip (fun n => (scan_key_run st (samples.take n)).pressed) j (i + 1) hij h1 h2
    exact ⟨m, by omega, by omega, pressed_drop_is_release st samples m hm3 hm4⟩

/-- C1 witness: on the concrete trace holding a key 7 cycles,
releasing it 7 cycles and holding it 7 cycles again, the press edges
at cycles 6 and 20 have a release edge strictly between them. -/
theorem debounce_edge_spec_witness :
    ∃ m, 6 < m ∧ m < 20 ∧ edge_at ⟨false, 0⟩ sampleTrace m = some Edge.release :=
  debounce_edge_spec.2 ⟨false, 0⟩ sampleTrace 6 20 (by decide) (by decide) (by decide)

lemma press_fold_queue (ks : List Nat) (s : MachineState)
    (h0 : ∀ i : Fin 7, s.queue i = 0) :
    ks.length ≤ 6 →
      ∀ i : Fin 7, (ks.foldl ll_key_press s).queue i = ks.reverse.getD i.val 0 := by
  induction ks using List.reverseRecOn with
  | nil => intro _ i; simpa using h0 i
  | append_singleton ks k ih =>
    intro hlen i
    have hlen' : ks.length ≤ 5 := by simp at hlen; omega
    have hX := ih (by omega)
    rw [List.foldl_append]
    rcases i with ⟨iv, hiv⟩
    interval_cases iv
    · simp [ll_key_press, send, List.reverse_append]
    · simpa [ll_key_press, send, List.reverse_append] using hX ⟨0, by omega⟩
    · simpa [ll_key_press, send, List.reverse_append] using hX ⟨1, by omega⟩
    · simpa [ll_key_press, send, List.reverse_append] using hX ⟨2, by omega⟩
    · simpa [ll_key_press, send, List.reverse_append] using hX ⟨3, by omega⟩
    · simpa [ll_key_press, send, List.reverse_append] using hX ⟨4, by omega⟩
    · have h6 := hX ⟨6, by omega⟩
      simp only [ll_key_press, send, List.foldl]
      simp only [List.reverse_append, List.reverse_cons, List.reverse_nil, List.nil_append,
        List.singleton_append]
      simp only [show ¬((6 : Nat) = 0) by omega, if_false, show ¬((6 : Nat) ≤ 5) by omega]
      rw [h6, List.getD_eq_default, List.getD_eq_default]
      · simp [List.length_reverse]; omega
      · simp [List.length_reverse]; omega

lemma ll_key_press_log_releases (s : MachineState) (k : Nat) :
    (ll_key_press s k).log.filter is_release_ev = s.log.filter is_release_ev := by
  simp [ll_key_press, send, List.filter_append, is_release_ev]

lemma press_fold_log_releases (ks : List Nat) (s : MachineState) :
    (ks.foldl ll_key_press s).log.filter is_release_ev = s.log.filter is_release_ev := by
  induction ks generalizing s with
  | nil => rfl
  | cons k rest ih =>
    rw [List.foldl_cons, ih, ll_key_press_log_releases]

/-- C2: `ll_key_press` shifts the six report slots right (discarding
the sixth) and inserts the code at the front, so pressing at most six
distinct codes into an empty queue leaves exactly those codes in
most-recent-first order (and zeros elsewhere), and pressing a seventh
code leaves the seventh through second codes, evicting the first
(least-recently-pressed) code, while the whole sequence emits no
release event. -/
theorem report_queue_press_spec (s : MachineState) (ks : List Nat) (k7 : Nat)
    (hnd : ks.Nodup) (hlen : ks.length ≤ 6) (h0 : ∀ i : Fin 7, s.queue i = 0)
    (hk7 : k7 ∉ ks) :
    (∀ i : Fin 7, (ks.foldl ll_key_press s).queue i = ks.reverse.getD i.val 0) ∧
    (ks.foldl ll_key_press s).log.filter is_release_ev = s.log.filter is_release_ev ∧
    (ks.length = 6 →
      (∀ i : Fin 7,
        (ll_key_press (ks.foldl ll_key_press s) k7).queue i =
          (k7 :: ks.reverse.take 5).getD i.val 0) ∧
      (ll_key_press (ks.foldl ll_key_press s) k7).log.filter is_release_ev =
        s.log.filter is_release_ev) := by
  refine ⟨press_fold_queue ks s h0 hlen, press_fold_log_releases ks s, ?_⟩
  intro h6
  refine ⟨?_, by rw [ll_key_press_log_releases, press_fold_log_releases]⟩
  intro i
  have hX := press_fold_queue ks s h0 hlen
  rcases ks with _ | ⟨c1, _ | ⟨c2, _ | ⟨c3, _ | ⟨c4, _ | ⟨c5, _ | ⟨c6, rest⟩⟩⟩⟩⟩⟩ <;>
    simp only [List.length_cons, List.length_nil] at h6
  · omega
  · omega
  · omega
  · omega
  · omega
  · omega
  · have hrest : rest = [] := by
      cases rest with
      | nil => rfl
      | cons a t => simp at h6
    subst hrest
    set X := [c1, c2, c3, c4, c5, c6].foldl ll_key_press s with hXdef
    rcases i with ⟨iv, hiv⟩
    interval_cases iv
    · simp [ll_key_press, send]
    · simpa [ll_key_press, send] using hX ⟨0, by omega⟩
    · simpa [ll_key_press, send] using hX ⟨1, by omega⟩
    · simpa [ll_key_press, send] using hX ⟨2, by omega⟩
    · simpa [ll_key_press, send] using hX ⟨3, by omega⟩
    · simpa [ll_key_press, send] using hX ⟨4, by omega⟩
    · simpa [ll_key_press, send] using hX ⟨6, by omega⟩

/-- C2 witness: pressing 1,2,3,4,5,6 into the empty queue yields the
slots (6,5,4,3,2,1,0); pressing 7 then yields (7,6,5,4,3,2,0) — code 1
is evicted — and no release event is ever emitted. -/
theorem report_queue_press_spec_witness :
    (∀ i : Fin 7,
      (ll_key_press ([1, 2, 3, 4, 5, 6].foldl ll_key_press init_state) 7).queue i =
        ((7 : Nat) :: ([1, 2, 3, 4, 5, 6] : List Nat).reverse.take 5).getD i.val 0) ∧
    (ll_key_press ([1, 2, 3, 4, 5, 6].foldl ll_key_press init_state) 7).log.filter is_release_ev =
      init_state.log.filter is_release_ev :=
  (report_queue_press_spec init_state [1, 2, 3, 4, 5, 6] 7 (by decide) (by decide)
    (fun i => rfl) (by decide)).2.2 rfl

/-- C3 counterexample: a recording-mode state whose replay buffer
holds 254 entries — fewer than 255 — on which `add_to_replay_buf` does
NOT append (the guard is `replay_buf_len + 1 < 255`, i.e. fewer than
254 entries): it leaves the buffer unchanged and force-exits recording
mode, so the 255th recorded key, not the 256th, forces the exit. -/
theorem add_to_replay_buf_at_254 :
    fullBufState.replay_buf.length = 254 ∧
    fullBufState.replay_buf.length < 255 ∧
    fullBufState.recording_mode = true ∧
    (add_to_replay_buf fullBufState 9).replay_buf = fullBufState.replay_buf ∧
    (add_to_replay_buf fullBufState 9).recording_mode = false := by
  have hlen : fullBufState.replay_buf.length = 254 := List.length_replicate 254 0
  refine ⟨hlen, by omega, rfl, ?_, ?_⟩
  · unfold add_to_replay_buf
    rw [if_neg (by omega)]
  · unfold add_to_replay_buf
    rw [if_neg (by omega)]

/-- C3 amended: `record(key_index)` appends the index whenever the
buffer holds fewer than 254 entries (the guard `replay_buf_len + 1 <
sizeof(replay_buf)` with `sizeof(replay_buf) = 255`), and only at 254
entries does it instead force-exit recording mode without modifying
the buffer; the buffer length never exceeds 254 and it is the 255th
recorded key that forces the recording-mode exit without buffer
corruption. -/
theorem add_to_replay_buf_spec (s : MachineState) (k : Nat) :
    (s.replay_buf.length < 254 →
      (add_to_replay_buf s k).replay_buf = s.replay_buf ++ [k] ∧
      (add_to_replay_buf s k).recording_mode = s.recording_mode) ∧
    (254 ≤ s.replay_buf.length →
      (add_to_replay_buf s k).replay_buf = s.replay_buf ∧
      (add_to_replay_buf s k).recording_mode = false) ∧
    (s.replay_buf.length ≤ 254 → (add_to_replay_buf s k).replay_buf.length ≤ 254) := by
  unfold add_to_replay_buf
  refine ⟨fun h => ?_, fun h => ?_, fun h => ?_⟩
  · rw [if_pos (by omega)]
    exact ⟨rfl, rfl⟩
  · rw [if_neg (by omega)]
    exact ⟨rfl, rfl⟩
  · by_cases hc : s.replay_buf.length + 1 < 255
    · rw [if_pos hc]
      simp
      omega
    · rw [if_neg hc]
      exact h

/-- C3 amended witness: from an empty recording buffer, recording key
3 appends it; from the full 254-entry buffer, recording leaves the
buffer at 254 entries. -/
theorem add_to_replay_buf_spec_witness :
    ((add_to_replay_buf recState 3).replay_buf = recState.replay_buf ++ [3] ∧
      (add_to_replay_buf recState 3).recording_mode = recState.recording_mode) ∧
    (add_to_replay_buf fullBufState 9).replay_buf.length ≤ 254 :=
  ⟨(add_to_replay_buf_spec recState 3).1 (by decide),
    (add_to_replay_buf_spec fullBufState 9).2.2
      (by have h : fullBufState.replay_buf.length = 254 := List.length_replicate 254 0; omega)⟩

lemma fin7_ext (p : Fin 7) (n : Nat) (hn : n < 7) (h : p.val = n) : p = ⟨n, hn⟩ :=
  Fin.ext h

lemma find_pos_absent (q : Fin 7 → Nat) (k : Nat)
    (h : ∀ i : Fin 7, i.val < 6 → q i ≠ k) : find_pos q k = 6 := by
  unfold find_pos
  rw [if_neg (h 0 (by decide)), if_neg (h 1 (by decide)), if_neg (h 2 (by decide)),
    if_neg (h 3 (by decide)), if_neg (h 4 (by decide)), if_neg (h 5 (by decide))]

lemma find_pos_found (q : Fin 7 → Nat) (k : Nat) (p : Fin 7)
    (hp : p.val = find_pos q k) (h6 : p.val < 6) :
    q p = k ∧ ∀ j : Fin 7, j.val < p.val → q j ≠ k := by
  unfold find_pos at hp
  split_ifs at hp with h0 h1 h2 h3 h4 h5
  · exact ⟨by rw [fin7_ext p 0 (by omega) hp]; exact h0,
      fun j hj => absurd (hp ▸ hj) (by omega)⟩
  · refine ⟨by rw [fin7_ext p 1 (by omega) hp]; exact h1, fun j hj => ?_⟩
    rw [hp] at hj
    fin_cases j <;> simp_all
  · refine ⟨by rw [fin7_ext p 2 (by omega) hp]; exact h2, fun j hj => ?_⟩
    rw [hp] at hj
    fin_cases j <;> simp_all
  · refine ⟨by rw [fin7_ext p 3 (by omega) hp]; exact h3, fun j hj => ?_⟩
    rw [hp] at hj
    fin_cases j <;> simp_all
  · refine ⟨by rw [fin7_ext p 4 (by omega) hp]; exact h4, fun j hj => ?_⟩
    rw [hp] at hj
    fin_cases j <;> simp_all
  · refine ⟨by rw [fin7_ext p 5 (by omega) hp]; exact h5, fun j hj => ?_⟩
    rw [hp] at hj
    fin_cases j <;> simp_all
  · omega

/-- C5: `ll_key_release` never touches the modifier bitmask; it shifts
every slot from the first position holding the code one place to the
left (the found position is the first occurrence); when slot 6 is zero
the freed trailing slot 5 is zero-filled; and when the code occurs in
none of the six slots the scan reaches the end and every slot is left
unchanged, with no error. -/
theorem ll_key_release_spec (s : MachineState) (k : Nat) :
    (ll_key_release s k).mod_keys = s.mod_keys ∧
    (∀ i : Fin 7, (ll_key_release s k).queue i =
      if h : find_pos s.queue k ≤ i.val ∧ i.val < 6 then
        s.queue ⟨i.val + 1, Nat.succ_lt_succ h.2⟩
      else s.queue i) ∧
    (∀ p : Fin 7, p.val = find_pos s.queue k → p.val < 6 →
      s.queue p = k ∧ ∀ j : Fin 7, j.val < p.val → s.queue j ≠ k) ∧
    (s.queue 6 = 0 → find_pos s.queue k ≤ 5 → (ll_key_release s k).queue 5 = 0) ∧
    ((∀ i : Fin 7, i.val < 6 → s.queue i ≠ k) →
      (∀ i : Fin 7, (ll_key_release s k).queue i = s.queue i) ∧
      (ll_key_release s k).mod_keys = s.mod_keys) := by
  refine ⟨rfl, fun i => rfl, fun p hp h6 => find_pos_found s.queue k p hp h6, ?_, ?_⟩
  · intro hz hle
    show (if h : find_pos s.queue k ≤ (5 : Fin 7).val ∧ (5 : Fin 7).val < 6 then
        s.queue ⟨(5 : Fin 7).val + 1, Nat.succ_lt_succ h.2⟩
      else s.queue 5) = 0
    rw [dif_pos ⟨by simpa using hle, by decide⟩]
    exact hz
  · intro habs
    have hfp := find_pos_absent s.queue k habs
    refine ⟨fun i => ?_, rfl⟩
    show (if h : find_pos s.queue k ≤ i.val ∧ i.val < 6 then
        s.queue ⟨i.val + 1, Nat.succ_lt_succ h.2⟩
      else s.queue i) = s.queue i
    rw [dif_neg]
    rw [hfp]
    intro hc
    omega

/-- C5 witness: releasing code 7 from the queue holding only 7 in slot
0 zero-fills the freed trailing slot; releasing the absent code 9
leaves every slot unchanged. -/
theorem ll_key_release_spec_witness :
    (ll_key_release oneKeyState 7).queue 5 = 0 ∧
    (∀ i : Fin 7, (ll_key_release oneKeyState 9).queue i = oneKeyState.queue i) ∧
    (ll_key_release oneKeyState 9).mod_keys = oneKeyState.mod_keys :=
  ⟨(ll_key_release_spec oneKeyState 7).2.2.2.1 (by decide) (by decide),
    (ll_key_release_spec oneKeyState 9).2.2.2.2 (by decide)⟩

/-- C10: the 7th queue slot (index 6) is zero initially and stays zero
across every press, release and clear operation: `ll_key_press` only
shifts slots 0..5 and `ll_key_release` only copies `queue[i+1]` into
slots up to index 5, so slot 6 is never written except by
`clear_pressed`, which zeroes it — this permanent zero slot is what
zero-fills the freed trailing report slot on removal. -/
theorem queue_slot6_spec (cfg : Config) (s : MachineState) (k : Nat) :
    init_state.queue 6 = 0 ∧
    (s.queue 6 = 0 → (ll_key_press s k).queue 6 = 0) ∧
    (s.queue 6 = 0 → (ll_key_release s k).queue 6 = 0) ∧
    (clear_pressed cfg s).queue 6 = 0 := by
  refine ⟨rfl, fun h => ?_, fun h => ?_, rfl⟩
  · show (if (6 : Fin 7).val = 0 then k
        else if (6 : Fin 7).val ≤ 5 then
          s.queue ⟨(6 : Fin 7).val - 1,
            Nat.lt_of_le_of_lt (Nat.sub_le (6 : Fin 7).val 1) (6 : Fin 7).isLt⟩
        else s.queue 6) = 0
    rw [if_neg (by decide), if_neg (by decide)]
    exact h
  · show (if hc : find_pos s.queue k ≤ (6 : Fin 7).val ∧ (6 : Fin 7).val < 6 then
        s.queue ⟨(6 : Fin 7).val + 1, Nat.succ_lt_succ hc.2⟩
      else s.queue 6) = 0
    rw [dif_neg (by intro hc; exact absurd hc.2 (by decide))]
    exact h

/-- C10 witness: concrete check of the slot-6 invariant across a press
of code 3, a release of code 3, and a clear, from the initial state. -/
theorem queue_slot6_spec_witness :
    init_state.queue 6 = 0 ∧
    (ll_key_press init_state 3).queue 6 = 0 ∧
    (ll_key_release init_state 3).queue 6 = 0 ∧
    (clear_pressed cfg0 init_state).queue 6 = 0 :=
  ⟨(queue_slot6_spec cfg0 init_state 3).1,
    (queue_slot6_spec cfg0 init_state 3).2.1 rfl,
    (queue_slot6_spec cfg0 init_state 3).2.2.1 rfl,
    (queue_slot6_spec cfg0 init_state 3).2.2.2⟩

lemma occupied_le (q : Fin 7 → Nat) : occupied q ≤ 6 := by
  unfold occupied
  calc (List.ofFn fun i : Fin 6 => q i.castSucc).countP (fun c => c != 0) ≤
      (List.ofFn fun i : Fin 6 => q i.castSucc).length := List.countP_le_length _
    _ = 6 := by simp

/-- C7 counterexample: from the queue holding only code 7 (which
satisfies the invariant), `ll_key_press 7` — a press of a code already
present, reachable in the firmware because a release absorbed in magic
mode leaves the code in the queue while clearing the key's pressed
flag — produces a queue holding 7 twice: the no-duplicates invariant
is not preserved by every press operation. -/
theorem queue_wf_press_violated :
    queue_wf oneKeyState.queue ∧ ¬ queue_wf ((ll_key_press oneKeyState 7).queue) := by
  constructor
  · exact ⟨by decide, by decide⟩
  · intro h
    exact absurd (h.2 0 1 (by decide) (by decide) (by decide)) (by decide)

/-- C7 amended: the report-queue invariant — at most 6 occupied slots
and no duplicate nonzero codes in the 6-slot window — is preserved by
`ll_key_press` provided the pressed code does not already occur among
the six slots, and by `ll_key_release` provided slot 6 is zero (the
permanent-zero seventh slot); codes are added at the front and removed
from whichever position matches. -/
theorem queue_wf_preservation (s : MachineState) (k : Nat) (hwf : queue_wf s.queue) :
    ((∀ i : Fin 7, i.val < 6 → s.queue i ≠ k) → queue_wf ((ll_key_press s k).queue)) ∧
    (s.queue 6 = 0 → queue_wf ((ll_key_release s k).queue)) := by
  constructor
  · intro habs
    refine ⟨occupied_le _, ?_⟩
    intro i j hij hj6 hne0
    by_cases hi0 : i.val = 0
    · have hnewi : (ll_key_press s k).queue i = k := by
        show (if i.val = 0 then k
            else if i.val ≤ 5 then
              s.queue ⟨i.val - 1, Nat.lt_of_le_of_lt (Nat.sub_le i.val 1) i.isLt⟩
            else s.queue i) = k
        rw [if_pos hi0]
      have hnewj : (ll_key_press s k).queue j =
          s.queue ⟨j.val - 1, Nat.lt_of_le_of_lt (Nat.sub_le j.val 1) j.isLt⟩ := by
        show (if j.val = 0 then k
            else if j.val ≤ 5 then
              s.queue ⟨j.val - 1, Nat.lt_of_le_of_lt (Nat.sub_le j.val 1) j.isLt⟩
            else s.queue j) = _
        rw [if_neg (by omega), if_pos (by omega)]
      rw [hnewi, hnewj]
      exact fun he => habs ⟨j.val - 1, Nat.lt_of_le_of_lt (Nat.sub_le j.val 1) j.isLt⟩
        (by show j.val - 1 < 6; omega) he.symm
    · have hnewi : (ll_key_press s k).queue i =
          s.queue ⟨i.val - 1, Nat.lt_of_le_of_lt (Nat.sub_le i.val 1) i.isLt⟩ := by
        show (if i.val = 0 then k
            else if i.val ≤ 5 then
              s.queue ⟨i.val - 1, Nat.lt_of_le_of_lt (Nat.sub_le i.val 1) i.isLt⟩
            else s.queue i) = _
        rw [if_neg hi0, if_pos (by omega)]
      have hnewj : (ll_key_press s k).queue j =
          s.queue ⟨j.val - 1, Nat.lt_of_le_of_lt (Nat.sub_le j.val 1) j.isLt⟩ := by
        show (if j.val = 0 then k
            else if j.val ≤ 5 then
              s.queue ⟨j.val - 1, Nat.lt_of_le_of_lt (Nat.sub_le j.val 1) j.isLt⟩
            else s.queue j) = _
        rw [if_neg (by omega), if_pos (by omega)]
      rw [hnewi] at hne0
      rw [hnewi, hnewj]
      exact hwf.2 ⟨i.val - 1, Nat.lt_of_le_of_lt (Nat.sub_le i.val 1) i.isLt⟩
        ⟨j.val - 1, Nat.lt_of_le_of_lt (Nat.sub_le j.val 1) j.isLt⟩
        (by show i.val - 1 < j.val - 1; omega) (by show j.val - 1 < 6; omega) hne0
  · intro h6
    refine ⟨occupied_le _, ?_⟩
    intro i j hij hj6 hne0
    have hzero : ∀ hpf : j.val + 1 < 7, j.val + 1 = 6 → s.queue ⟨j.val + 1, hpf⟩ = 0 := by
      intro hpf hj1
      rw [fin7_ext ⟨j.val + 1, hpf⟩ 6 (by omega) hj1]
      exact h6
    by_cases hi : find_pos s.queue k ≤ i.val
    · have hnewi : (ll_key_release s k).queue i =
          s.queue ⟨i.val + 1, Nat.succ_lt_succ (by omega : i.val < 6)⟩ := by
        show (if h : find_pos s.queue k ≤ i.val ∧ i.val < 6 then
            s.queue ⟨i.val + 1, Nat.succ_lt_succ h.2⟩
          else s.queue i) = _
        rw [dif_pos ⟨hi, by omega⟩]
      have hnewj : (ll_key_release s k).queue j =
          s.queue ⟨j.val + 1, Nat.succ_lt_succ hj6⟩ := by
        show (if h : find_pos s.queue k ≤ j.val ∧ j.val < 6 then
            s.queue ⟨j.val + 1, Nat.succ_lt_succ h.2⟩
          else s.queue j) = _
        rw [dif_pos ⟨by omega, hj6⟩]
      rw [hnewi] at hne0
      rw [hnewi, hnewj]
      by_cases hj5 : j.val + 1 < 6
      · exact hwf.2 _ _ (by show i.val + 1 < j.val + 1; omega) hj5 hne0
      · rw [hzero _ (by omega)]
        exact hne0
    · have hnewi : (ll_key_release s k).queue i = s.queue i := by
        show (if h : find_pos s.queue k ≤ i.val ∧ i.val < 6 then
            s.queue ⟨i.val + 1, Nat.succ_lt_succ h.2⟩
          else s.queue i) = _
        rw [dif_neg (fun hc => hi hc.1)]
      by_cases hj : find_pos s.queue k ≤ j.val
      · have hnewj : (ll_key_release s k).queue j =
            s.queue ⟨j.val + 1, Nat.succ_lt_succ hj6⟩ := by
          show (if h : find_pos s.queue k ≤ j.val ∧ j.val < 6 then
              s.queue ⟨j.val + 1, Nat.succ_lt_succ h.2⟩
            else s.queue j) = _
          rw [dif_pos ⟨hj, hj6⟩]
        rw [hnewi] at hne0
        rw [hnewi, hnewj]
        by_cases hj5 : j.val + 1 < 6
        · exact hwf.2 _ _ (by show i.val < j.val + 1; omega) hj5 hne0
        · rw [hzero _ (by omega)]
          exact hne0
      · have hnewj : (ll_key_release s k).queue j = s.queue j := by
          show (if h : find_pos s.queue k ≤ j.val ∧ j.val < 6 then
              s.queue ⟨j.val + 1, Nat.succ_lt_succ h.2⟩
            else s.queue j) = _
          rw [dif_neg (fun hc => hj hc.1)]
        rw [hnewi] at hne0
        rw [hnewi, hnewj]
        exact hwf.2 i j hij hj6 hne0

/-- C7 amended witness: pressing the absent code 9 into the queue
holding only 7, and releasing 7 from it, both preserve the invariant. -/
theorem queue_wf_preservation_witness :
    queue_wf ((ll_key_press oneKeyState 9).queue) ∧
    queue_wf ((ll_key_release oneKeyState 7).queue) :=
  ⟨(queue_wf_preservation oneKeyState 9 ⟨by decide, by decide⟩).1 (by decide),
    (queue_wf_preservation oneKeyState 7 ⟨by decide, by decide⟩).2 (by decide)⟩

/-- C6 counterexample: in magic mode with six codes in the report
queue, a press of the self-test key (layout value `KEY_X`, key 2 of
`cfg0`) injects two synthetic `KEY_X` press/release pairs through the
low-level queue primitives; the queue is observably changed (slot 5
goes from 6 to 0 because each release pulls the permanent zero of slot
6 leftwards), so magic-mode maintenance-key activity does reach the
report queue. -/
theorem magic_mode_reaches_queue :
    magicState.magic_mode = true ∧
    magicState.queue 5 = 6 ∧
    (key_press cfg0 2 magicState 2).map (fun t => t.queue 5) = some 0 :=
  ⟨rfl, by decide, by decide⟩

/-- C6 amended: while magic mode is active, a press edge leaves the
report queue, the modifier bitmask and the stream of low-level queue
events unchanged unless the key's layout value is `KEY_X` (the
self-test injects synthetic `KEY_X` press/release pairs through the
low-level queue primitives) or `KEY_R` (replay clears and repopulates
the queue); a release edge leaves them unchanged unless the value is
`KEY_Q` (starting a recording issues a queue clear).  Apart from these
maintenance commands, magic-mode key activity never reaches the
report queue. -/
theorem magic_mode_absorbs (cfg : Config) (fuel : Nat) (s : MachineState) (k : Nat)
    (hm : s.magic_mode = true) :
    ((cfg.layout k).value ≠ KEY_X → (cfg.layout k).value ≠ KEY_R →
      ((key_press cfg fuel s k).map (fun t => List.ofFn t.queue) =
        (key_press cfg fuel s k).map (fun _ => List.ofFn s.queue) ∧
       (key_press cfg fuel s k).map (fun t => t.mod_keys) =
        (key_press cfg fuel s k).map (fun _ => s.mod_keys) ∧
       (key_press cfg fuel s k).map (fun t => t.log.filter is_ll_ev) =
        (key_press cfg fuel s k).map (fun _ => s.log.filter is_ll_ev))) ∧
    ((cfg.layout k).value ≠ KEY_Q →
      ((∀ i : Fin 7, (key_release cfg s k).queue i = s.queue i) ∧
       (key_release cfg s k).mod_keys = s.mod_keys ∧
       (key_release cfg s k).log.filter is_ll_ev = s.log.filter is_ll_ev)) := by
  constructor
  · intro hx hr
    match fuel with
    | 0 => exact ⟨rfl, rfl, rfl⟩
    | fuel + 1 =>
      match fuel with
      | 0 =>
        simp [key_press, magic_key_press, hm]
      | fuel + 1 =>
        simp only [key_press, magic_key_press, hm, if_true, hx, if_false, hr]
        split_ifs <;>
          simp [is_ll_ev, List.filter_append]
  · intro hq
    refine ⟨fun i => ?_, ?_, ?_⟩ <;>
      simp [key_release, magic_key_release, hm, hq, is_ll_ev, List.filter_append]

/-- C6 amended witness: in magic mode, pressing and releasing key 0 of
`cfg0` (an ordinary letter, not a maintenance key) leaves the queue,
the modifiers and the low-level event stream unchanged. -/
theorem magic_mode_absorbs_witness :
    ((key_press cfg0 2 magicState 0).map (fun t => List.ofFn t.queue) =
      (key_press cfg0 2 magicState 0).map (fun _ => List.ofFn magicState.queue) ∧
     (key_press cfg0 2 magicState 0).map (fun t => t.mod_keys) =
      (key_press cfg0 2 magicState 0).map (fun _ => magicState.mod_keys) ∧
     (key_press cfg0 2 magicState 0).map (fun t => t.log.filter is_ll_ev) =
      (key_press cfg0 2 magicState 0).map (fun _ => magicState.log.filter is_ll_ev)) ∧
    ((∀ i : Fin 7, (key_release cfg0 magicState 0).queue i = magicState.queue i) ∧
     (key_release cfg0 magicState 0).mod_keys = magicState.mod_keys ∧
     (key_release cfg0 magicState 0).log.filter is_ll_ev =
      magicState.log.filter is_ll_ev) :=
  ⟨(magic_mode_absorbs cfg0 2 magicState 0 rfl).1 (by decide) (by decide),
    (magic_mode_absorbs cfg0 2 magicState 0 rfl).2 (by decide)⟩

/-- C9 counterexample: the release of the record key in magic mode
does more than the claimed exhaustive list of actions — through
`clear_pressed` it also clears every key's logical pressed flag: key 1
is logically pressed before the transition and unpressed after it,
although the claim's list of effects mentions no pressed flag. -/
theorem record_start_clears_pressed :
    magicPressedState.magic_mode = true ∧
    (cfg0.layout 3).value = KEY_Q ∧
    magicPressedState.pressed 1 = true ∧
    (key_release cfg0 magicPressedState 3).pressed 1 = false :=
  ⟨rfl, by decide, by decide, by decide⟩

/-- C9 amended: in magic mode, the release (and only the release, not
the press) of a key whose layout value is `KEY_Q` starts a recording
session by exactly: resetting the macro buffer length to 0, setting
recording mode, exiting magic mode, issuing the report-queue clear
that zeroes all slots and the modifier byte and transmits the empty
report, and additionally clearing every key's logical pressed flag
(the full `clear_pressed` reset); the triggering keystroke itself is
not captured (the buffer ends empty), and a press of the same key
leaves recording mode and the buffer unchanged. -/
theorem magic_record_release_spec (cfg : Config) (s : MachineState) (k fuel : Nat)
    (hm : s.magic_mode = true) (hq : (cfg.layout k).value = KEY_Q) :
    (key_release cfg s k).replay_buf = [] ∧
    (key_release cfg s k).recording_mode = true ∧
    (key_release cfg s k).magic_mode = false ∧
    (∀ i : Fin 7, (key_release cfg s k).queue i = 0) ∧
    (key_release cfg s k).mod_keys = 0 ∧
    (∀ j, j < cfg.nkey → (key_release cfg s k).pressed j = false) ∧
    (key_release cfg s k).log = s.log ++ [Ev.release k, Ev.send [0, 0, 0, 0, 0, 0] 0] ∧
    (key_press cfg fuel s k).map (fun t => t.recording_mode) =
      (key_press cfg fuel s k).map (fun _ => s.recording_mode) ∧
    (key_press cfg fuel s k).map (fun t => t.replay_buf) =
      (key_press cfg fuel s k).map (fun _ => s.replay_buf) := by
  refine ⟨by simp [key_release, magic_key_release, clear_pressed, send, hm, hq],
    by simp [key_release, magic_key_release, clear_pressed, send, hm, hq],
    by simp [key_release, magic_key_release, clear_pressed, send, hm, hq],
    fun i => by simp [key_release, magic_key_release, clear_pressed, send, hm, hq],
    by simp [key_release, magic_key_release, clear_pressed, send, hm, hq],
    fun j hj => by simp [key_release, magic_key_release, clear_pressed, send, hm, hq, hj],
    by simp [key_release, magic_key_release, clear_pressed, send, hm, hq, List.ofFn_succ],
    ?_, ?_⟩
  · match fuel with
    | 0 => rfl
    | 1 => simp [key_press, magic_key_press, hm]
    | fuel + 2 =>
      by_cases hmg : is_magic_key cfg k <;>
        simp [key_press, magic_key_press, hm, hq, hmg, KEY_Q, KEY_X, KEY_R, KEY_B]
  · match fuel with
    | 0 => rfl
    | 1 => simp [key_press, magic_key_press, hm]
    | fuel + 2 =>
      by_cases hmg : is_magic_key cfg k <;>
        simp [key_press, magic_key_press, hm, hq, hmg, KEY_Q, KEY_X, KEY_R, KEY_B]

/-- C9 amended witness: concrete record-key release in magic mode with
`cfg0` (key 3 has value `KEY_Q`): buffer emptied, recording set, magic
cleared, modifiers zeroed, and the press of the same key does not
start recording. -/
theorem magic_record_release_spec_witness :
    (key_release cfg0 magicPressedState 3).replay_buf = [] ∧
    (key_release cfg0 magicPressedState 3).recording_mode = true ∧
    (key_release cfg0 magicPressedState 3).magic_mode = false ∧
    (key_release cfg0 magicPressedState 3).mod_keys = 0 ∧
    (key_press cfg0 3 magicPressedState 3).map (fun t => t.recording_mode) =
      (key_press cfg0 3 magicPressedState 3).map (fun _ => magicPressedState.recording_mode) :=
  ⟨(magic_record_release_spec cfg0 magicPressedState 3 3 rfl (by decide)).1,
    (magic_record_release_spec cfg0 magicPressedState 3 3 rfl (by decide)).2.1,
    (magic_record_release_spec cfg0 magicPressedState 3 3 rfl (by decide)).2.2.1,
    (magic_record_release_spec cfg0 magicPressedState 3 3 rfl (by decide)).2.2.2.2.1,
    (magic_record_release_spec cfg0 magicPressedState 3 3 rfl (by decide)).2.2.2.2.2.2.2.1⟩

lemma modes_ok_add_to_replay_buf (s : MachineState) (k : Nat) (h : modes_ok s) :
    modes_ok (add_to_replay_buf s k) := by
  unfold add_to_replay_buf
  split_ifs
  · exact h
  · exact Or.inr rfl

lemma key_release_modes (cfg : Config) (s : MachineState) (k : Nat) (h : modes_ok s) :
    modes_ok (key_release cfg s k) := by
  simp only [key_release, magic_key_release]
  split_ifs <;> first
    | exact Or.inl rfl
    | exact h
    | exact modes_ok_add_to_replay_buf _ _ h

lemma modes_ok_pack (fuel : Nat) :
    ∀ (cfg : Config) (s : MachineState) (k : Nat) (s' : MachineState),
      (modes_ok s → key_press cfg fuel s k = some s' → modes_ok s') ∧
      (modes_ok s → magic_key_press cfg fuel s k = some s' → modes_ok s') ∧
      (modes_ok s → replay_keypresses cfg fuel s = some s' → modes_ok s') ∧
      (∀ i, modes_ok s → replay_loop cfg fuel s i = some s' → modes_ok s') := by
  induction fuel with
  | zero =>
    intro cfg s k s'
    refine ⟨fun _ h => ?_, fun _ h => ?_, fun _ h => ?_, fun i _ h => ?_⟩
    · simp [key_press] at h
    · simp [magic_key_press] at h
    · simp [replay_keypresses] at h
    · simp [replay_loop] at h
  | succ fuel ih =>
    intro cfg s k s'
    refine ⟨?_, ?_, ?_, ?_⟩
    · -- key_press (fuel+1)
      intro hok h
      simp only [key_press] at h
      by_cases hm : s.magic_mode = true
      · rw [if_pos hm] at h
        exact (ih cfg
          { s with pressed := fun j => if j = k then true else s.pressed j
                   log := s.log ++ [Ev.press k] } k s').2.1 hok h
      · rw [if_neg hm] at h
        by_cases hmk : is_magic_key cfg k = true
        · rw [if_pos hmk] at h
          injection h with h'
          rw [← h']
          split_ifs with hr
          · exact Or.inr rfl
          · exact Or.inr (by simpa using hr)
        · rw [if_neg hmk] at h
          injection h with h'
          rw [← h']
          have h2 : modes_ok (if s.recording_mode = true then
              add_to_replay_buf
                { s with pressed := fun j => if j = k then true else s.pressed j
                         log := s.log ++ [Ev.press k] } k
            else
              { s with pressed := fun j => if j = k then true else s.pressed j
                       log := s.log ++ [Ev.press k] }) := by
            split_ifs
            · exact modes_ok_add_to_replay_buf _ _ hok
            · exact hok
          split_ifs at h2 ⊢ <;> exact h2
    · -- magic_key_press (fuel+1)
      intro hok h
      simp only [magic_key_press] at h
      by_cases hKR : (cfg.layout k).value = KEY_R
      · rw [if_pos hKR] at h
        exact (ih cfg _ k s').2.2.1 (Or.inl rfl) h
      · rw [if_neg hKR] at h
        by_cases hKB : (cfg.layout k).value = KEY_B
        · rw [if_pos hKB] at h
          injection h with h'
          rw [← h']
          split_ifs <;> first | exact Or.inl rfl | exact hok
        · rw [if_neg hKB] at h
          injection h with h'
          rw [← h']
          split_ifs <;> first | exact Or.inl rfl | exact hok
    · -- replay_keypresses (fuel+1)
      intro hok h
      simp only [replay_keypresses] at h
      exact (ih cfg (clear_pressed cfg s) k s').2.2.2 0 hok h
    · -- replay_loop (fuel+1)
      intro i hok h
      simp only [replay_loop] at h
      by_cases hlen : i < s.replay_buf.length
      · rw [dif_pos hlen] at h
        by_cases hp : s.pressed (s.replay_buf.get ⟨i, hlen⟩) = false
        · rw [if_pos hp] at h
          cases hkp : key_press cfg fuel s (s.replay_buf.get ⟨i, hlen⟩) with
          | none => rw [hkp] at h; exact absurd h (by simp)
          | some t =>
            rw [hkp] at h
            have ht : modes_ok t := (ih cfg s (s.replay_buf.get ⟨i, hlen⟩) t).1 hok hkp
            exact (ih cfg t k s').2.2.2 (i + 1) ht h
        · rw [if_neg hp] at h
          exact (ih cfg (key_release cfg s (s.replay_buf.get ⟨i, hlen⟩)) k s').2.2.2 (i + 1)
            (key_release_modes cfg s (s.replay_buf.get ⟨i, hlen⟩) hok) h
      · rw [dif_neg hlen] at h
        injection h with h'
        rw [← h']
        exact hok

/-- C8: in every state reachable from the initial state through
dispatched press and release edges, the mode flags `magic_mode` and
`recording_mode` are never both set: the only transition that sets
`recording_mode` (the record-key release hook) also clears
`magic_mode`, and `magic_mode` is only set on the branch where
`recording_mode` is already clear. -/
theorem modes_mutually_exclusive (cfg : Config) (s : MachineState) (h : Reach cfg s) :
    ¬(s.magic_mode = true ∧ s.recording_mode = true) := by
  have hok : modes_ok s := by
    induction h with
    | init => exact Or.inl rfl
    | press s0 k fuel s' hr hstep ih => exact (modes_ok_pack fuel cfg s0 k s').1 ih hstep
    | release s0 k hr ih => exact key_release_modes cfg s0 k ih
  intro hc
  rcases hok with h1 | h1
  · rw [hc.1] at h1
    exact absurd h1 (by simp)
  · rw [hc.2] at h1
    exact absurd h1 (by simp)

/-- C8 witness: the mutual-exclusion invariant at the (reachable)
initial state. -/
theorem modes_mutually_exclusive_witness :
    ¬(init_state.magic_mode = true ∧ init_state.recording_mode = true) :=
  modes_mutually_exclusive cfg0 init_state Reach.init

lemma record_phase_facts (cfg : Config) (s : MachineState) (a b : Nat)
    (hmagA : is_magic_key cfg a = false) (hmagB : is_magic_key cfg b = false)
    (hmodA : cfg.isModifier (cfg.layout a) = false)
    (hmodB : cfg.isModifier (cfg.layout b) = false)
    (hne : b ≠ a)
    (hm : s.magic_mode = false) (hr : s.recording_mode = true) (hbuf : s.replay_buf = []) :
    (((key_press cfg 1 s a).map (fun t => key_release cfg t a)).bind
        (fun t => key_press cfg 1 t b)).map (fun t => t.replay_buf) = some [a, a, b] ∧
    (((key_press cfg 1 s a).map (fun t => key_release cfg t a)).bind
        (fun t => key_press cfg 1 t b)).map
      (fun t => (t.log.drop s.log.length).filterMap dispatch_ev) =
      some [(true, a), (false, a), (true, b)] ∧
    (((key_press cfg 1 s a).map (fun t => key_release cfg t a)).bind
        (fun t => key_press cfg 1 t b)).map (fun t => t.magic_mode) = some false ∧
    (((key_press cfg 1 s a).map (fun t => key_release cfg t a)).bind
        (fun t => key_press cfg 1 t b)).map (fun t => t.log.take s.log.length) = some s.log := by
  refine ⟨?_, ?_, ?_, ?_⟩ <;>
    simp [key_press, key_release, magic_key_press, magic_key_release, add_to_replay_buf,
      ll_key_press, ll_key_release, ll_modifier_press, ll_modifier_release, clear_pressed,
      send, dispatch_ev, hmagA, hmagB, hmodA, hmodB, hne, hm, hr, hbuf,
      List.append_assoc, List.drop_left, List.take_left]

set_option maxHeartbeats 1600000 in
lemma replay_three (cfg : Config) (t : MachineState) (a b : Nat)
    (hmagA : is_magic_key cfg a = false) (hmagB : is_magic_key cfg b = false)
    (hmodA : cfg.isModifier (cfg.layout a) = false)
    (hmodB : cfg.isModifier (cfg.layout b) = false)
    (hne : b ≠ a) (hnA : a < cfg.nkey) (hnB : b < cfg.nkey)
    (hm : t.magic_mode = false) (hr : t.recording_mode = false)
    (hbuf : t.replay_buf = [a, a, b]) :
    (replay_keypresses cfg 5 t).map
        (fun u => (u.log.drop t.log.length).filterMap dispatch_ev) =
      some [(true, a), (false, a), (true, b)] ∧
    (replay_keypresses cfg 5 t).map (fun u => u.log.take t.log.length) = some t.log := by
  constructor <;>
    simp [replay_keypresses, replay_loop, key_press, key_release, magic_key_press,
      magic_key_release, add_to_replay_buf, ll_key_press, ll_key_release, ll_modifier_press,
      ll_modifier_release, clear_pressed, send, dispatch_ev, hmagA, hmagB, hmodA, hmodB,
      hne, hnA, hnB, hm, hr, hbuf, List.append_assoc, List.drop_left, List.take_left]

/-- C4: `replay_keypresses` first issues the full clear (empty queue
and modifiers) and then walks the macro buffer front-to-back,
synthesizing a press for a key whose pressed flag is clear and a
release otherwise; consequently, recording press(A), release(A),
press(B) from a recording-mode state with an empty buffer stores
[A, A, B], and replaying it against the cleared state dispatches
press(A), release(A), press(B) — exactly the recorded sequence, in
order (the final log's dispatcher events are the recorded three
followed by the same three again). -/
theorem record_replay_round_trip (cfg : Config) (s : MachineState) (a b : Nat)
    (hmagA : is_magic_key cfg a = false) (hmagB : is_magic_key cfg b = false)
    (hmodA : cfg.isModifier (cfg.layout a) = false)
    (hmodB : cfg.isModifier (cfg.layout b) = false)
    (hne : b ≠ a) (hnA : a < cfg.nkey) (hnB : b < cfg.nkey)
    (hm : s.magic_mode = false) (hr : s.recording_mode = true) (hbuf : s.replay_buf = []) :
    (∀ (t : MachineState) (fuel : Nat),
      replay_keypresses cfg (fuel + 1) t = replay_loop cfg fuel (clear_pressed cfg t) 0 ∧
      (∀ i : Fin 7, (clear_pressed cfg t).queue i = 0) ∧
      (clear_pressed cfg t).mod_keys = 0) ∧
    (((key_press cfg 1 s a).map (fun t => key_release cfg t a)).bind
        (fun t => key_press cfg 1 t b)).map (fun t => t.replay_buf) = some [a, a, b] ∧
    (((key_press cfg 1 s a).map (fun t => key_release cfg t a)).bind
        (fun t => key_press cfg 1 t b)).map
      (fun t => (t.log.drop s.log.length).filterMap dispatch_ev) =
      some [(true, a), (false, a), (true, b)] ∧
    ((((key_press cfg 1 s a).map (fun t => key_release cfg t a)).bind
        (fun t => key_press cfg 1 t b)).bind
      (fun t => replay_keypresses cfg 5 { t with recording_mode := false })).map
      (fun t => (t.log.drop s.log.length).filterMap dispatch_ev) =
      some [(true, a), (false, a), (true, b), (true, a), (false, a), (true, b)] := by
  obtain ⟨f1, f2, f3, f4⟩ := record_phase_facts cfg s a b hmagA hmagB hmodA hmodB hne hm hr hbuf
  refine ⟨fun t fuel => ⟨rfl, fun i => rfl, rfl⟩, f1, f2, ?_⟩
  rcases hchain : ((key_press cfg 1 s a).map (fun t => key_release cfg t a)).bind
      (fun t => key_press cfg 1 t b) with _ | t
  · rw [hchain] at f1
    exact absurd f1 (by simp)
  · rw [hchain] at f1 f2 f3 f4
    simp only [Option.map_some', Option.some.injEq] at f1 f2 f3 f4
    have hsplit : t.log = s.log ++ t.log.drop s.log.length := by
      conv_lhs => rw [← List.take_append_drop s.log.length t.log]
      rw [f4]
    have hrep := replay_three cfg { t with recording_mode := false } a b hmagA hmagB hmodA
      hmodB hne hnA hnB f3 rfl f1
    obtain ⟨hr1, hr2⟩ := hrep
    have hTlog : ({ t with recording_mode := false } : MachineState).log = t.log := rfl
    rw [hTlog] at hr1 hr2
    rcases hrepc : replay_keypresses cfg 5 { t with recording_mode := false } with _ | u
    · rw [hrepc] at hr1
      exact absurd hr1 (by simp)
    · rw [hrepc] at hr1 hr2
      simp only [Option.map_some', Option.some.injEq] at hr1 hr2
      have husplit : u.log = t.log ++ u.log.drop t.log.length := by
        conv_lhs => rw [← List.take_append_drop t.log.length u.log]
        rw [hr2]
      have key : ∀ L0 D0 Dr : List Ev, t.log = L0 ++ D0 → u.log = t.log ++ Dr →
          u.log.drop L0.length = D0 ++ Dr := by
        intro L0 D0 Dr h1 h2
        rw [h2, h1, List.append_assoc, List.drop_left]
      have hfinal := key s.log (t.log.drop s.log.length) (u.log.drop t.log.length)
        hsplit husplit
      show Option.map (fun u => (u.log.drop s.log.length).filterMap dispatch_ev)
          (replay_keypresses cfg 5 { t with recording_mode := false }) =
        some [(true, a), (false, a), (true, b), (true, a), (false, a), (true, b)]
      rw [hrepc]
      show some ((u.log.drop s.log.length).filterMap dispatch_ev) =
        some [(true, a), (false, a), (true, b), (true, a), (false, a), (true, b)]
      rw [hfinal, List.filterMap_append, f2, hr1]
      rfl

/-- C4 witness: with the concrete `cfg0`, recording press(0),
release(0), press(1) from the empty recording state stores [0, 0, 1]
and replaying reproduces the dispatched sequence press(0), release(0),
press(1) after the recorded one. -/
theorem record_replay_round_trip_witness :
    (((key_press cfg0 1 recState 0).map (fun t => key_release cfg0 t 0)).bind
        (fun t => key_press cfg0 1 t 1)).map (fun t => t.replay_buf) = some [0, 0, 1] ∧
    ((((key_press cfg0 1 recState 0).map (fun t => key_release cfg0 t 0)).bind
        (fun t => key_press cfg0 1 t 1)).bind
      (fun t => replay_keypresses cfg0 5 { t with recording_mode := false })).map
      (fun t => (t.log.drop recState.log.length).filterMap dispatch_ev) =
      some [(true, 0), (false, 0), (true, 1), (true, 0), (false, 0), (true, 1)] :=
  ⟨(record_replay_round_trip cfg0 recState 0 1 (by decide) (by decide) (by decide) (by decide)
      (by decide) (by decide) (by decide) rfl rfl rfl).2.1,
    (record_replay_round_trip cfg0 recState 0 1 (by decide) (by decide) (by decide) (by decide)
      (by decide) (by decide) (by decide) rfl rfl rfl).2.2.2⟩
